import Mathlib

/-!
Shallow embedding of the termtools streaming-observation core.

The midimon application core (`aud/lib/src/apps/midimon/app.rs`) is embedded as a
pure state-transition system: the Host→Script and Script→Host bounded channels are
lists of events together with the channel capacity (1000 slots in the source), and
every fallible method returns `Except (String × App) _`, where an error carries the
post-state exactly as the Rust `&mut self` retains its mutations when a `?` fires.
External effects (the filesystem read, the OS MIDI connection, the watcher spawn)
are explicit parameters, so every definition is executable on concrete inputs.

The auscope terminal front ends (`aud/cli/src/auscope/mod.rs` and
`src/commands/auscope/app.rs`) are embedded the same way: keys map to the state
transitions of their `on_keypress` handlers, and the capture channel drain of
`App::update` is a fold over the queued frames.

Definitions come first, then the theorems about them, grouped by the behaviour
they settle: message handover, script loading, connecting, dropping, the file
watcher, the script-event drain, and the UI front ends.
-/

namespace Termtools

/-! ## Data model and operations -/

/-- Modelled from the spec: `crate::midi::MidiData` is outside the provided sources;
the spec describes a MIDI capture frame as a short byte sequence plus a monotonic
timestamp, and the application core only moves these values around. -/
structure MidiData where
  bytes : List Nat
  timestamp : Nat
deriving DecidableEq, Repr

/-- Modelled from the spec: the Host→Script event alphabet (`HostEvent` lives in the
midimon `lua` module, outside the provided sources); constructors follow the spec
data model and their uses in `app.rs`. -/
inductive HostEvent where
  | Connect (device : String)
  | Disconnect
  | Discover (names : List String)
  | LoadScript (name : String) (chunk : String)
  | Stop
  | Terminate
  | Midi (m : MidiData)
deriving DecidableEq, Repr

/-- Log/alert requests a script can make (`LogApiEvent` of the lua API surface). -/
inductive LogApiEvent where
  | Log (msg : String)
  | Alert (msg : String)
deriving DecidableEq, Repr

/-- Control-flow requests a script can make (`ControlFlowApiEvent`). -/
inductive ControlFlowApiEvent where
  | Pause
  | Resume
  | Stop
deriving DecidableEq, Repr

/-- Connection request a script can make (`ConnectionApiEvent`). -/
structure ConnectionApiEvent where
  device : String
deriving DecidableEq, Repr

/-- Modelled from the spec: the Script→Host event alphabet (`ScriptEvent` lives in the
midimon `lua` module, outside the provided sources); constructors follow the match
arms of `App::process_script_events` in `app.rs`. -/
inductive ScriptEvent where
  | Loaded
  | Log (r : LogApiEvent)
  | Midi (m : MidiData)
  | Connect (r : ConnectionApiEvent)
  | Control (r : ControlFlowApiEvent)
deriving DecidableEq, Repr

/-- Result type of the application-core pumps (`AppEvent` in `app.rs`). -/
inductive AppEvent where
  | Continue
  | Stopping
  | ScriptCrash
  | ScriptLoaded
deriving DecidableEq, Repr

/-- Kinds of filesystem watcher events (`notify::EventKind`, flattened over the
sub-kind payloads, which `App::has_file_changed` wildcards anyway). -/
inductive NotifyEventKind where
  | Access
  | Create
  | Modify
  | Remove
  | Any
  | Other
deriving DecidableEq, Repr

/-- The midimon application core state (`App` in `aud/lib/src/apps/midimon/app.rs`).
Channels are embedded by their queued contents; `luaHandle` records whether the
engine thread handle is still present (`LuaEngineHandle::take_handle`);
`midiConnectOk` models the result of `midi_in.connect_to_midi_device` per device;
`fileWatcher` holds the watcher and its queued events, `none` when no watcher runs. -/
structure App where
  hostQueue : List HostEvent
  scriptQueue : List ScriptEvent
  luaHandle : Bool
  midiConnectOk : String → Bool
  midiStreamActive : Bool
  portNames : List String
  selectedPortName : Option String
  selectedScriptName : Option String
  alertMessage : Option String
  messages : List MidiData
  scriptPath : Option String
  fileWatcher : Option (List (Except String NotifyEventKind))

/-- Capacity of the host and script channels (`crossbeam::channel::bounded(1_000)`). -/
def chanCap : Nat := 1000

/-- `Sender::try_send` on a bounded channel: append when a slot is free, otherwise
drop the event and report failure. -/
def trySend (q : List HostEvent) (e : HostEvent) : List HostEvent × Bool :=
  if q.length < chanCap then (q ++ [e], true) else (q, false)

/-- External effects reaching `App::load_script`: `fs path` is the content of `path`
when it names an existing regular file whose read succeeds (`Path::exists`,
`Path::is_file` and `fs::read_to_string` combined), and `watcherRunOk` is whether
`files::FsWatcher::run` succeeds. -/
structure World where
  fs : String → Option String
  watcherRunOk : Bool

/-- `App::take_messages`: `std::mem::take(&mut self.messages)`. -/
def takeMessages (a : App) : List MidiData × App :=
  (a.messages, { a with messages := [] })

/-- `App::clear_messages`. -/
def clearMessages (a : App) : App :=
  { a with messages := [] }

/-- `App::set_running` (forwarded to `midi_in.set_midi_stream_active`). -/
def setRunning (a : App) (shouldRun : Bool) : App :=
  { a with midiStreamActive := shouldRun }

/-- `App::connect_to_midi_input_by_index`. An index outside `port_names` returns
`Ok(())` immediately; otherwise the MIDI connection is attempted (its failure is the
error case, with the state untouched), the port is recorded as selected, a
`Connect` host event is try-sent (failure only logged), and messages are cleared. -/
def connectToMidiInputByIndex (a : App) (portIndex : Nat) :
    Except (String × App) App :=
  match a.portNames[portIndex]? with
  | none => Except.ok a
  | some portName =>
    if a.midiConnectOk portName then
      let a1 := { a with selectedPortName := some portName }
      let a2 := { a1 with hostQueue := (trySend a1.hostQueue (HostEvent.Connect portName)).1 }
      Except.ok (clearMessages a2)
    else
      Except.error ("failed to connect to midi device", a)

/-- `App::connect_to_midi_input`: position of the name in `port_names`, then
connect by index; an unknown name returns `Ok(())`. -/
def connectToMidiInput (a : App) (portName : String) : Except (String × App) App :=
  match a.portNames.findIdx? (fun name => name == portName) with
  | some index => connectToMidiInputByIndex a index
  | none => Except.ok a

/-- Characters of the last `/`-separated component of a path, accumulated in
reverse. -/
def fileNameAux : List Char → List Char → List Char
  | [], acc => acc.reverse
  | c :: cs, acc => if c = '/' then fileNameAux cs [] else fileNameAux cs (c :: acc)

/-- `Path::file_name` of a `/`-separated path, `unwrap_or_default`ed to `""`. -/
def fileName (path : String) : String :=
  String.mk (fileNameAux path.toList [])

/-- `App::load_script`. Validates the path before any mutation, records the path and
script name, try-sends `Stop`, spawns the file watcher, try-sends `LoadScript` and
`Discover`, and finally reconnects the selected port if any. -/
def loadScript (w : World) (a : App) (script : String) :
    Except (String × App) (App × AppEvent) :=
  match w.fs script with
  | none => Except.error ("Invalid script path or type", a)
  | some chunk =>
    let name := fileName script
    let a1 := { a with scriptPath := some script, selectedScriptName := some name }
    let a2 := { a1 with hostQueue := (trySend a1.hostQueue HostEvent.Stop).1 }
    let a3 := { a2 with fileWatcher := if w.watcherRunOk then some [] else none }
    let a4 := { a3 with hostQueue := (trySend a3.hostQueue (HostEvent.LoadScript name chunk)).1 }
    let a5 := { a4 with hostQueue := (trySend a4.hostQueue (HostEvent.Discover a4.portNames)).1 }
    match a5.selectedPortName with
    | some port =>
      match connectToMidiInput a5 port with
      | Except.ok a6 => Except.ok (a6, AppEvent.Continue)
      | Except.error err => Except.error err
    | none => Except.ok (a5, AppEvent.Continue)

/-- Final state of a `load_script` call, whether it returned `Ok` or `Err`. -/
def loadScriptFinal (w : World) (a : App) (s : String) : App :=
  match loadScript w a s with
  | Except.ok (a2, _) => a2
  | Except.error (_, a2) => a2

/-- The host events enqueued during one `load_script` call: the suffix the call
appended to the Host→Script channel. -/
def enqueuedDuring (w : World) (a : App) (s : String) : List HostEvent :=
  (loadScriptFinal w a s).hostQueue.drop a.hostQueue.length

/-- `App::handle_lua_log_request`: logs go to the log sink, alerts fill the slot. -/
def handleLuaLogRequest (a : App) (r : LogApiEvent) : App :=
  match r with
  | LogApiEvent.Log _ => a
  | LogApiEvent.Alert msg => { a with alertMessage := some msg }

/-- `App::handle_lua_control_request`. -/
def handleLuaControlRequest (a : App) (r : ControlFlowApiEvent) : App × AppEvent :=
  match r with
  | ControlFlowApiEvent.Pause => (setRunning a false, AppEvent.Continue)
  | ControlFlowApiEvent.Resume => (setRunning a true, AppEvent.Continue)
  | ControlFlowApiEvent.Stop => (a, AppEvent.Stopping)

/-- `App::handle_lua_connect_request`: connect only when the device is listed. -/
def handleLuaConnectRequest (a : App) (r : ConnectionApiEvent) :
    Except (String × App) App :=
  if a.portNames.any (fun name => name == r.device) then
    connectToMidiInput a r.device
  else
    Except.ok a

/-- The `while let Ok(..) = self.script_rx.try_recv()` loop of
`App::process_script_events`, recursing over the queued script events. -/
def processScriptEventsAux : List ScriptEvent → App → Except (String × App) (App × AppEvent)
  | [], a => Except.ok ({ a with scriptQueue := [] }, AppEvent.Continue)
  | ScriptEvent.Loaded :: rest, a =>
      Except.ok ({ a with scriptQueue := rest }, AppEvent.ScriptLoaded)
  | ScriptEvent.Log r :: rest, a =>
      processScriptEventsAux rest (handleLuaLogRequest a r)
  | ScriptEvent.Midi m :: rest, a =>
      processScriptEventsAux rest { a with messages := a.messages ++ [m] }
  | ScriptEvent.Connect r :: rest, a =>
      match handleLuaConnectRequest a r with
      | Except.ok a2 => processScriptEventsAux rest a2
      | Except.error (msg, a2) => Except.error (msg, { a2 with scriptQueue := rest })
  | ScriptEvent.Control r :: rest, a =>
      match handleLuaControlRequest a r with
      | (a2, AppEvent.Stopping) => Except.ok ({ a2 with scriptQueue := rest }, AppEvent.Stopping)
      | (a2, _) => processScriptEventsAux rest a2

/-- `App::process_script_events`. -/
def processScriptEvents (a : App) : Except (String × App) (App × AppEvent) :=
  processScriptEventsAux a.scriptQueue a

/-- `App::has_file_changed`: only a successful `Modify` event counts; watcher errors
are logged and report no change. -/
def hasFileChanged : Except String NotifyEventKind → Bool
  | Except.ok kind => kind == NotifyEventKind.Modify
  | Except.error _ => false

/-- The `for event in watcher.events().try_iter().collect::<Vec<_>>()` loop of
`App::process_file_events`. -/
def processFileEventsGo (w : World) :
    List (Except String NotifyEventKind) → App → Except (String × App) (App × AppEvent)
  | [], a => Except.ok (a, AppEvent.Continue)
  | e :: rest, a =>
    if hasFileChanged e then
      match a.scriptPath with
      | some script => loadScript w a script
      | none => Except.ok (a, AppEvent.Continue)
    else
      processFileEventsGo w rest a

/-- `App::process_file_events`: nothing to do without a watcher; otherwise drain the
watcher channel and reload on the first modification. -/
def processFileEvents (w : World) (a : App) : Except (String × App) (App × AppEvent) :=
  match a.fileWatcher with
  | none => Except.ok (a, AppEvent.Continue)
  | some events => processFileEventsGo w events { a with fileWatcher := some [] }

/-- `impl Drop for App`: take the engine handle (bail if already gone), try-send
`Terminate` exactly once — on failure log and return without joining — and
otherwise join the engine thread. Returns the final state, whether the join was
reached, and the number of `try_send` attempts made. -/
def appDrop (a : App) : App × Bool × Nat :=
  if a.luaHandle then
    let a1 := { a with luaHandle := false }
    let qs := trySend a1.hostQueue HostEvent.Terminate
    let a2 := { a1 with hostQueue := qs.1 }
    if qs.2 then (a2, true, 1) else (a2, false, 1)
  else
    (a, false, 0)

/-- A quiescent application core, used to build concrete states. -/
def baseApp : App :=
  { hostQueue := []
    scriptQueue := []
    luaHandle := false
    midiConnectOk := fun _ => true
    midiStreamActive := true
    portNames := []
    selectedPortName := none
    selectedScriptName := none
    alertMessage := none
    messages := []
    scriptPath := none
    fileWatcher := none }

/-- Run-loop outcome of one UI step (`crate::app::Flow`). -/
inductive Flow where
  | Continue
  | Exit
  | Loop
deriving DecidableEq, Repr

/-- Which list the UI selection event refers to (`ui::Selector` in
`aud/cli/src/auscope`). -/
inductive Selector where
  | Device
  | Script
deriving DecidableEq, Repr

/-- Result of `ui.on_keypress` in the newer auscope front end (`ui::UiEvent`):
continue, exit, or a confirmed selection in one of the lists. -/
inductive UiEvent where
  | Continue
  | Exit
  | Select (id : Selector) (index : Nat)
deriving DecidableEq, Repr

/-- Observable state of the newer auscope front end (`TerminalApp` in
`aud/cli/src/auscope/mod.rs`): `connectCalls` records every invocation of the
audio-input connect operation on the inner application core. -/
structure TerminalAppState where
  connectCalls : List Nat
deriving DecidableEq, Repr

/-- `TerminalApp::on_keypress` from `aud/cli/src/auscope/mod.rs`, applied to the
event the UI layer produced for the keypress. The device-selection arm contains
only a commented-out connect call in the source, so no arm records a connect. -/
def terminalAppOnKeypress (t : TerminalAppState) (u : UiEvent) :
    TerminalAppState × Flow :=
  match u with
  | UiEvent.Continue => (t, Flow.Continue)
  | UiEvent.Exit => (t, Flow.Exit)
  | UiEvent.Select Selector.Device _ => (t, Flow.Continue)
  | UiEvent.Select Selector.Script _ => (t, Flow.Continue)

/-- Keys distinguished by `App::on_keypress` in `src/commands/auscope/app.rs`. -/
inductive Key where
  | Question
  | QuitChar
  | Esc
  | Space
  | Down
  | JChar
  | Up
  | KChar
  | Enter
  | Other
deriving DecidableEq, Repr

/-- The older auscope application (`App` in `src/commands/auscope/app.rs`).
`selectedIndex`/`confirmedIndex` are the `OwnedList` cursor; `hostHasDevice`
models whether the host enumeration still contains the selected name and
`streamOk` whether opening the input stream succeeds. Audio samples are
embedded as integers since the code only moves them, never computes with them. -/
structure AuscopeApp where
  deviceNames : List String
  selectedIndex : Option Nat
  confirmedIndex : Option Nat
  selection : Option String
  isRunning : Bool
  showUsage : Bool
  audioBuffer : List (List Int)
  captureQueue : List (List (List Int))
  hostHasDevice : Bool
  streamOk : Bool
  streamOpen : Bool
deriving DecidableEq, Repr

/-- Modelled from the spec: `OwnedList` (widget layer, outside the provided
sources) keeps a cursor over its items; scrolling moves it one row, stopping at
the ends, and starts at the first row when unset. -/
def listNext (len : Nat) : Option Nat → Option Nat
  | none => if len = 0 then none else some 0
  | some i => if i + 1 < len then some (i + 1) else some i

/-- Modelled from the spec: counterpart of `listNext` for scrolling up. -/
def listPrev (len : Nat) : Option Nat → Option Nat
  | none => if len = 0 then none else some 0
  | some i => some (i - 1)

/-- `App::connect` from `src/commands/auscope/app.rs`: bail without a selection,
find the selected device in the host enumeration, pause and drop any prior
stream, record the selection, then open the new input stream. -/
def auscopeConnect (a : AuscopeApp) : Except String AuscopeApp :=
  match a.selectedIndex with
  | none => Except.error ""
  | some i =>
    match a.deviceNames[i]? with
    | none => Except.error ""
    | some name =>
      if a.hostHasDevice then
        let a1 := { a with streamOpen := false }
        let a2 := { a1 with selection := some name }
        if a.streamOk then
          Except.ok { a2 with streamOpen := true }
        else
          Except.error "failed to open stream"
      else
        Except.error ""

/-- `App::on_keypress` from `src/commands/auscope/app.rs`. The `Enter` arm, with a
row selected, confirms the selection, resumes, clears every buffered channel and
connects to the selected device. -/
def auscopeOnKeypress (a : AuscopeApp) (k : Key) : Except String (AuscopeApp × Flow) :=
  match k with
  | Key.Question => Except.ok ({ a with showUsage := !a.showUsage }, Flow.Continue)
  | Key.QuitChar =>
      if a.showUsage then Except.ok ({ a with showUsage := false }, Flow.Continue)
      else Except.ok (a, Flow.Exit)
  | Key.Esc =>
      if a.showUsage then Except.ok ({ a with showUsage := false }, Flow.Continue)
      else Except.ok (a, Flow.Exit)
  | Key.Space => Except.ok ({ a with isRunning := !a.isRunning }, Flow.Continue)
  | Key.Down =>
      Except.ok ({ a with selectedIndex := listNext a.deviceNames.length a.selectedIndex },
        Flow.Continue)
  | Key.JChar =>
      Except.ok ({ a with selectedIndex := listNext a.deviceNames.length a.selectedIndex },
        Flow.Continue)
  | Key.Up =>
      Except.ok ({ a with selectedIndex := listPrev a.deviceNames.length a.selectedIndex },
        Flow.Continue)
  | Key.KChar =>
      Except.ok ({ a with selectedIndex := listPrev a.deviceNames.length a.selectedIndex },
        Flow.Continue)
  | Key.Enter =>
      match a.selectedIndex with
      | some _ =>
        let a1 := { a with
                    confirmedIndex := a.selectedIndex
                    isRunning := true
                    audioBuffer := a.audioBuffer.map (fun _ => ([] : List Int)) }
        match auscopeConnect a1 with
        | Except.ok a2 => Except.ok (a2, Flow.Continue)
        | Except.error e => Except.error e
      | none => Except.ok (a, Flow.Continue)
  | Key.Other => Except.ok (a, Flow.Continue)

/-- `Vec::resize(newLen, vec![])`: truncate, or pad with empty channels. -/
def resizeWithEmpty (buf : List (List Int)) (newLen : Nat) : List (List Int) :=
  if newLen ≤ buf.length then buf.take newLen
  else buf ++ List.replicate (newLen - buf.length) []

/-- One iteration of the drain loop in `App::update` of
`src/commands/auscope/app.rs`: the two resize branches exactly as written
(shrinking resizes to `buf.length - frame.length`), then the mutating zip, which
appends each frame channel into the buffer channel of the same index and leaves
buffer channels beyond the zip untouched. -/
def updateStep (buf frame : List (List Int)) : List (List Int) :=
  let buf1 := if frame.length < buf.length then
      resizeWithEmpty buf (buf.length - frame.length)
    else buf
  let buf2 := if frame.length > buf1.length then
      buf1 ++ List.replicate (frame.length - buf1.length) []
    else buf1
  List.zipWith (fun o n => o ++ n) buf2 frame ++ buf2.drop frame.length

/-- `App::update` from `src/commands/auscope/app.rs`: bail to `Flow::Loop` when
paused, otherwise drain every queued capture frame into the audio buffer. -/
def auscopeUpdate (a : AuscopeApp) : AuscopeApp × Flow :=
  if !a.isRunning then (a, Flow.Loop)
  else
    ({ a with
       audioBuffer := a.captureQueue.foldl updateStep a.audioBuffer
       captureQueue := [] }, Flow.Continue)

/-- Command-line options of the auscope subcommand (`Options` in
`aud/cli/src/auscope/mod.rs`); the frame rate is embedded as a rational since the
code only compares and defaults it. `clap` fills `fps` with `30.` when the flag
is omitted. -/
structure AuscopeOptions where
  fps : ℚ
  scriptPath : Option String
  address : Option String
deriving DecidableEq, Repr

/-- The option record produced when no flags are given. -/
def defaultAuscopeOptions : AuscopeOptions :=
  { fps := 30, scriptPath := none, address := none }

/-- The frame rate `run` hands to `crate::app::run`: `opts.fps.max(1.)`. -/
def runFrameRate (o : AuscopeOptions) : ℚ :=
  max o.fps 1

/-- A quiescent older-auscope application, for concrete states. -/
def baseAuscope : AuscopeApp :=
  { deviceNames := []
    selectedIndex := none
    confirmedIndex := none
    selection := none
    isRunning := true
    showUsage := false
    audioBuffer := []
    captureQueue := []
    hostHasDevice := true
    streamOk := true
    streamOpen := false }

/-- A core with one known MIDI device and nothing selected. -/
def oneDeviceApp : App :=
  { baseApp with portNames := ["Midi Through"] }

/-- A core whose Host→Script channel is completely full and whose engine handle
is still live. -/
def fullChannelApp : App :=
  { baseApp with luaHandle := true
                 hostQueue := List.replicate chanCap HostEvent.Stop }

/-- A live-handle core with a free channel. -/
def liveHandleApp : App :=
  { baseApp with luaHandle := true }

/-- A world with an empty filesystem. -/
def emptyWorld : World :=
  { fs := fun _ => none, watcherRunOk := true }

/-- The newer auscope front end before a keypress. -/
def idleTerminalApp : TerminalAppState :=
  { connectCalls := [] }

/-- The older auscope application with the first device row selected. -/
def selectedAuscopeApp : AuscopeApp :=
  { baseAuscope with
    deviceNames := ["dev0"]
    selectedIndex := some 0
    isRunning := false }

/-- Three empty buffer channels, one queued single-channel frame. -/
def shrinkFrameApp : AuscopeApp :=
  { baseAuscope with audioBuffer := [[], [], []], captureQueue := [[[7]]] }

/-- A core watching a script whose pending watcher events are an error, a
`Create` and a `Remove`. -/
def noModifyWatcherApp : App :=
  { baseApp with
    scriptPath := some "script.lua"
    fileWatcher := some [Except.error "watch error",
      Except.ok NotifyEventKind.Create, Except.ok NotifyEventKind.Remove] }

/-- Events that interrupt the `process_script_events` drain: a `Loaded`, a
`Control(Stop)`, or a `Connect` request for a listed device whose MIDI
connection attempt fails (its error is propagated by `?`). Whether an event
interrupts depends only on the device list and the connection behaviour, both
of which the drain never changes. -/
def earlyEvent (a : App) : ScriptEvent → Bool
  | ScriptEvent.Loaded => true
  | ScriptEvent.Control ControlFlowApiEvent.Stop => true
  | ScriptEvent.Connect r =>
      a.portNames.any (fun name => name == r.device) && !a.midiConnectOk r.device
  | _ => false

/-- A core whose only device refuses connections while a script `Connect`
request for it sits first in the queue. -/
def failingConnectApp : App :=
  { baseApp with
    portNames := ["a"]
    midiConnectOk := fun _ => false
    scriptQueue := [ScriptEvent.Connect { device := "a" },
      ScriptEvent.Log (LogApiEvent.Log "m")] }

/-- A queue with one harmless `Log` event before the `Loaded` marker and one
event after it. -/
def logThenLoadedApp : App :=
  { baseApp with
    scriptQueue := [ScriptEvent.Log (LogApiEvent.Log "hello"), ScriptEvent.Loaded,
      ScriptEvent.Midi { bytes := [144, 60, 100], timestamp := 0 }] }

/-- The state reached by a valid `load_script` call just before the optional
reconnect: path and name recorded, watcher replaced, and the three try-sends
performed in order. -/
def loadedState (w : World) (a : App) (script chunk : String) : App :=
  { a with
    scriptPath := some script
    selectedScriptName := some (fileName script)
    hostQueue := (trySend ((trySend ((trySend a.hostQueue HostEvent.Stop).1)
        (HostEvent.LoadScript (fileName script) chunk)).1)
        (HostEvent.Discover a.portNames)).1
    fileWatcher := if w.watcherRunOk then some [] else none }

/-- A world holding one valid script file. -/
def scriptWorld : World :=
  { fs := fun s => if s = "script.lua" then some "print 1" else none
    watcherRunOk := true }

/-- A core with two devices, the second selected. -/
def selectedPortApp : App :=
  { baseApp with portNames := ["A", "B"], selectedPortName := some "B" }

/-! ## Theorems -/

theorem trySend_of_room (q : List HostEvent) (e : HostEvent) (h : q.length < chanCap) :
    trySend q e = (q ++ [e], true) := by
  simp [trySend, h]

theorem trySend_of_full (q : List HostEvent) (e : HostEvent) (h : ¬ q.length < chanCap) :
    trySend q e = (q, false) := by
  simp [trySend, h]

theorem trySend_fst_extends (q : List HostEvent) (e : HostEvent) :
    ∃ t, (trySend q e).1 = q ++ t := by
  by_cases h : q.length < chanCap
  · exact ⟨[e], by simp [trySend, h]⟩
  · exact ⟨[], by simp [trySend, h]⟩

theorem findIdx_beq_of_mem (p : String) (l : List String) (h : p ∈ l) :
    ∃ i, l.findIdx? (fun name => name == p) = some i ∧ l[i]? = some p := by
  induction l with
  | nil => cases h
  | cons x xs ih =>
    by_cases hx : x = p
    · exact ⟨0, by simp [List.findIdx?_cons, hx]⟩
    · have hmem : p ∈ xs := by
        cases h with
        | head => exact absurd rfl hx
        | tail _ h2 => exact h2
      obtain ⟨i, hfind, hget⟩ := ih hmem
      refine ⟨i + 1, ?_, ?_⟩
      · simp [List.findIdx?_cons, hx, hfind]
      · simpa using hget

theorem findIdx_beq_of_not_mem (p : String) (l : List String) (h : p ∉ l) :
    l.findIdx? (fun name => name == p) = none := by
  induction l with
  | nil => rfl
  | cons x xs ih =>
    have hx : ¬ x = p := fun hxp => h (hxp ▸ List.mem_cons_self x xs)
    have hmem : p ∉ xs := fun hm => h (List.mem_cons_of_mem x hm)
    simp [List.findIdx?_cons, hx, ih hmem]

theorem connectByIndex_ok (a : App) (i : Nat) (nm : String)
    (hget : a.portNames[i]? = some nm) (hc : a.midiConnectOk nm = true) :
    connectToMidiInputByIndex a i = Except.ok
      { a with selectedPortName := some nm
               hostQueue := (trySend a.hostQueue (HostEvent.Connect nm)).1
               messages := [] } := by
  unfold connectToMidiInputByIndex
  rw [hget]
  simp [hc, clearMessages]

theorem connectByIndex_err (a : App) (i : Nat) (nm : String)
    (hget : a.portNames[i]? = some nm) (hc : a.midiConnectOk nm = false) :
    connectToMidiInputByIndex a i =
      Except.error ("failed to connect to midi device", a) := by
  unfold connectToMidiInputByIndex
  rw [hget]
  simp [hc]

theorem connect_ok_of_connectOk (a : App) (p : String) (hp : p ∈ a.portNames)
    (hc : a.midiConnectOk p = true) :
    connectToMidiInput a p = Except.ok
      { a with selectedPortName := some p
               hostQueue := (trySend a.hostQueue (HostEvent.Connect p)).1
               messages := [] } := by
  obtain ⟨i, hfind, hget⟩ := findIdx_beq_of_mem p a.portNames hp
  unfold connectToMidiInput
  rw [hfind]
  exact connectByIndex_ok a i p hget hc

theorem connect_err_of_not_connectOk (a : App) (p : String) (hp : p ∈ a.portNames)
    (hc : a.midiConnectOk p = false) :
    connectToMidiInput a p = Except.error ("failed to connect to midi device", a) := by
  obtain ⟨i, hfind, hget⟩ := findIdx_beq_of_mem p a.portNames hp
  unfold connectToMidiInput
  rw [hfind]
  exact connectByIndex_err a i p hget hc

theorem connectByIndex_queue_cases (a : App) (i : Nat) :
    (∃ a2, connectToMidiInputByIndex a i = Except.ok a2
        ∧ ∃ t, a2.hostQueue = a.hostQueue ++ t)
  ∨ (∃ m, connectToMidiInputByIndex a i = Except.error (m, a)) := by
  cases hget : a.portNames[i]? with
  | none =>
    refine Or.inl ⟨a, ?_, [], by simp⟩
    unfold connectToMidiInputByIndex
    rw [hget]
  | some nm =>
    cases hc : a.midiConnectOk nm with
    | true =>
      obtain ⟨t, ht⟩ := trySend_fst_extends a.hostQueue (HostEvent.Connect nm)
      exact Or.inl ⟨_, connectByIndex_ok a i nm hget hc, t, ht⟩
    | false =>
      exact Or.inr ⟨_, connectByIndex_err a i nm hget hc⟩

/-- Whatever a `connect_to_midi_input` call does, its final host queue is the
initial queue possibly extended; and an error leaves the state untouched. -/
theorem connect_queue_cases (a : App) (p : String) :
    (∃ a2, connectToMidiInput a p = Except.ok a2 ∧ ∃ t, a2.hostQueue = a.hostQueue ++ t)
  ∨ (∃ m, connectToMidiInput a p = Except.error (m, a)) := by
  unfold connectToMidiInput
  cases hfind : a.portNames.findIdx? (fun name => name == p) with
  | none => exact Or.inl ⟨a, rfl, [], by simp⟩
  | some i => exact connectByIndex_queue_cases a i

/-- Claim C4: with no intervening tick, `take_messages` first returns the
accumulated messages (moving them out), and a second call returns the empty
sequence and changes nothing further. -/
theorem c4_take_messages_idempotent (a : App) :
    (takeMessages a).1 = a.messages
  ∧ (takeMessages (takeMessages a).2).1 = []
  ∧ (takeMessages (takeMessages a).2).2 = (takeMessages a).2 :=
  ⟨rfl, rfl, rfl⟩

/-- Claim C5: when the path does not name a readable regular file, `load_script`
returns an error and the state is exactly the input state: nothing was enqueued
and the script path, script name and file watcher are untouched. -/
theorem c5_load_script_invalid_path (w : World) (a : App) (script : String)
    (h : w.fs script = none) :
    loadScript w a script = Except.error ("Invalid script path or type", a) := by
  unfold loadScript
  rw [h]

theorem c5_load_script_invalid_path_witness :
    emptyWorld.fs "missing.lua" = none
  ∧ loadScript emptyWorld baseApp "missing.lua" =
      Except.error ("Invalid script path or type", baseApp) :=
  ⟨rfl, c5_load_script_invalid_path emptyWorld baseApp "missing.lua" rfl⟩

/-- Claim C3 counterexample: with one device listed, connecting by the
out-of-range index 4, or by an unknown name, returns `Ok` — not an error — and
performs no connection (the state, in particular the selected port, is
unchanged). -/
theorem c3_counterexample :
    connectToMidiInputByIndex oneDeviceApp 4 = Except.ok oneDeviceApp
  ∧ connectToMidiInput oneDeviceApp "missing-device" = Except.ok oneDeviceApp
  ∧ oneDeviceApp.selectedPortName = none :=
  ⟨rfl, rfl, rfl⟩

/-- Claim C3 as amended: an index outside the device list, or a name not in it,
makes `connect_to_midi_input_by_index` / `connect_to_midi_input` return success
immediately as a no-op — the state is returned unchanged and no error reaches
the caller. -/
theorem c3_connect_out_of_range_is_silent_noop (a : App) (i : Nat) (nm : String)
    (hi : a.portNames[i]? = none) (hn : nm ∉ a.portNames) :
    connectToMidiInputByIndex a i = Except.ok a
  ∧ connectToMidiInput a nm = Except.ok a := by
  constructor
  · unfold connectToMidiInputByIndex
    rw [hi]
  · unfold connectToMidiInput
    rw [findIdx_beq_of_not_mem nm a.portNames hn]

theorem c3_connect_out_of_range_is_silent_noop_witness :
    (oneDeviceApp.portNames[4]? = none ∧ "missing-device" ∉ oneDeviceApp.portNames)
  ∧ connectToMidiInputByIndex oneDeviceApp 4 = Except.ok oneDeviceApp
  ∧ connectToMidiInput oneDeviceApp "missing-device" = Except.ok oneDeviceApp :=
  ⟨⟨rfl, by decide⟩,
    c3_connect_out_of_range_is_silent_noop oneDeviceApp 4 "missing-device" rfl (by decide)⟩

/-- Claim C2 counterexample: dropping the core while the Host→Script channel is
full makes exactly one `try_send` attempt — there is no retry loop — and the
engine thread is not joined, so a single full-channel failure skips both. -/
theorem c2_counterexample :
    (appDrop fullChannelApp).2.2 = 1 ∧ (appDrop fullChannelApp).2.1 = false := by
  have hfull : ¬ (List.replicate chanCap HostEvent.Stop).length < chanCap := by
    simp
  constructor
  · unfold appDrop fullChannelApp baseApp
    simp [trySend_of_full _ _ hfull]
  · unfold appDrop fullChannelApp baseApp
    simp [trySend_of_full _ _ hfull]

/-- Claim C2 as amended: on drop with a live engine handle, `Terminate` is
try-sent exactly once; the join happens exactly when that single send succeeds
(the channel had a free slot), in which case `Terminate` is the last queued
event — a failed send logs and abandons the join with no retry. -/
theorem c2_drop_single_send_then_join (a : App) (h : a.luaHandle = true) :
    (appDrop a).2.2 = 1
  ∧ ((appDrop a).2.1 = true ↔ a.hostQueue.length < chanCap)
  ∧ (a.hostQueue.length < chanCap →
      (appDrop a).1.hostQueue = a.hostQueue ++ [HostEvent.Terminate]) := by
  by_cases hq : a.hostQueue.length < chanCap
  · unfold appDrop
    rw [h]
    simp [trySend_of_room _ _ hq, hq]
  · unfold appDrop
    rw [h]
    simp [trySend_of_full _ _ hq, hq]

theorem c2_drop_single_send_then_join_witness :
    liveHandleApp.luaHandle = true
  ∧ ((appDrop liveHandleApp).2.2 = 1
      ∧ ((appDrop liveHandleApp).2.1 = true ↔ liveHandleApp.hostQueue.length < chanCap)
      ∧ (liveHandleApp.hostQueue.length < chanCap →
          (appDrop liveHandleApp).1.hostQueue =
            liveHandleApp.hostQueue ++ [HostEvent.Terminate])) :=
  ⟨rfl, c2_drop_single_send_then_join liveHandleApp rfl⟩

/-- Claim C7 evaluated on the code: in the newer auscope front end
(`aud/cli/src/auscope/mod.rs`), a confirmed device selection produces
`Flow::Continue` with the state unchanged — no connect call is recorded for any
index, because the connect line is commented out. The older variant
(`src/commands/auscope/app.rs`), by contrast, does connect on Enter. -/
theorem c7_enter_device_row_connect :
    (∀ (t : TerminalAppState) (i : Nat),
        terminalAppOnKeypress t (UiEvent.Select Selector.Device i) = (t, Flow.Continue))
  ∧ auscopeOnKeypress selectedAuscopeApp Key.Enter =
      Except.ok ({ selectedAuscopeApp with
                   confirmedIndex := some 0
                   isRunning := true
                   selection := some "dev0"
                   streamOpen := true }, Flow.Continue) :=
  ⟨fun _ _ => rfl, rfl⟩

/-- Claim C10 evaluated on the code: draining a 1-channel frame into a 3-channel
buffer leaves 2 channels, not 1 — `update` resizes the buffer to
`buffer.len() - frame.len()` instead of `frame.len()` before the append, so the
buffer does not end up with exactly the frame channel count. -/
theorem c10_update_shrink_channel_count :
    (auscopeUpdate shrinkFrameApp).1.audioBuffer = [[7], []]
  ∧ (auscopeUpdate shrinkFrameApp).1.audioBuffer.length ≠ 1 := by
  constructor
  · rfl
  · decide

/-- Claim C8: the frame rate handed to the run loop is `max(fps, 1)`: it is at
least 1, equals the supplied value whenever that is at least 1, is clamped to 1
below that, and the omitted-flag default is 30. -/
theorem c8_fps_clamped_min_one_default_thirty (o : AuscopeOptions) :
    1 ≤ runFrameRate o
  ∧ (1 ≤ o.fps → runFrameRate o = o.fps)
  ∧ (o.fps < 1 → runFrameRate o = 1)
  ∧ runFrameRate defaultAuscopeOptions = 30 := by
  refine ⟨le_max_right _ _, fun h => max_eq_left h, fun h => max_eq_right (le_of_lt h), ?_⟩
  unfold runFrameRate defaultAuscopeOptions
  simp

theorem c8_fps_clamped_min_one_default_thirty_witness :
    runFrameRate { fps := 60, scriptPath := none, address := none } = 60
  ∧ runFrameRate { fps := 1/2, scriptPath := none, address := none } = 1 :=
  ⟨(c8_fps_clamped_min_one_default_thirty _).2.1 (by norm_num),
   (c8_fps_clamped_min_one_default_thirty _).2.2.1 (by norm_num)⟩

theorem processFileEventsGo_cases (w : World)
    (evs : List (Except String NotifyEventKind)) :
    ∀ (a : App) (p : String), a.scriptPath = some p →
    ((∃ e ∈ evs, hasFileChanged e = true) →
        processFileEventsGo w evs a = loadScript w a p)
  ∧ ((∀ e ∈ evs, hasFileChanged e = false) →
        processFileEventsGo w evs a = Except.ok (a, AppEvent.Continue)) := by
  induction evs with
  | nil =>
    intro a p _
    exact ⟨fun h => absurd h (by simp), fun _ => rfl⟩
  | cons e rest ih =>
    intro a p hp
    cases hce : hasFileChanged e with
    | true =>
      constructor
      · intro _
        simp only [processFileEventsGo, hce, if_true, hp]
      · intro hall
        exact absurd (hall e (List.mem_cons_self e rest)) (by simp [hce])
    | false =>
      constructor
      · rintro ⟨x, hx, hchanged⟩
        have hxrest : x ∈ rest := by
          cases hx with
          | head => exact absurd hchanged (by simp [hce])
          | tail _ h2 => exact h2
        have := (ih a p hp).1 ⟨x, hxrest, hchanged⟩
        simpa [processFileEventsGo, hce] using this
      · intro hall
        have := (ih a p hp).2 (fun x hx => hall x (List.mem_cons_of_mem e hx))
        simpa [processFileEventsGo, hce] using this

/-- Claim C6: with a watcher installed and a script loaded, draining the watcher
events re-invokes `load_script` on the current path exactly when some drained
event is a successful `Modify`; if every drained event is an error, a `Create`
or a `Remove`, nothing is reloaded and the watcher stays installed (only its
queue is drained); watcher errors and Create/Remove events never count as a
change. -/
theorem c6_reload_iff_modify (w : World) (a : App)
    (evs : List (Except String NotifyEventKind)) (p : String)
    (hw : a.fileWatcher = some evs) (hp : a.scriptPath = some p) :
    ((∃ e ∈ evs, hasFileChanged e = true) →
        processFileEvents w a = loadScript w { a with fileWatcher := some [] } p)
  ∧ ((∀ e ∈ evs, hasFileChanged e = false) →
        processFileEvents w a =
          Except.ok ({ a with fileWatcher := some [] }, AppEvent.Continue))
  ∧ (∀ msg, hasFileChanged (Except.error msg) = false)
  ∧ (∀ k, hasFileChanged (Except.ok k) = true ↔ k = NotifyEventKind.Modify) := by
  have hmain := processFileEventsGo_cases w evs { a with fileWatcher := some [] } p hp
  refine ⟨?_, ?_, fun _ => rfl, ?_⟩
  · intro hex
    unfold processFileEvents
    rw [hw]
    exact hmain.1 hex
  · intro hall
    unfold processFileEvents
    rw [hw]
    exact hmain.2 hall
  · intro k
    cases k <;> simp [hasFileChanged]

theorem c6_reload_iff_modify_witness :
    (∀ e ∈ [Except.error "watch error", Except.ok NotifyEventKind.Create,
        Except.ok NotifyEventKind.Remove], hasFileChanged e = false)
  ∧ processFileEvents emptyWorld noModifyWatcherApp =
      Except.ok ({ noModifyWatcherApp with fileWatcher := some [] },
        AppEvent.Continue) :=
  ⟨by decide,
    (c6_reload_iff_modify emptyWorld noModifyWatcherApp
      [Except.error "watch error", Except.ok NotifyEventKind.Create,
        Except.ok NotifyEventKind.Remove] "script.lua" rfl rfl).2.1 (by decide)⟩

theorem earlyEvent_congr (a a2 : App) (hpn : a2.portNames = a.portNames)
    (hmc : a2.midiConnectOk = a.midiConnectOk) (e : ScriptEvent) :
    earlyEvent a2 e = earlyEvent a e := by
  cases e with
  | Connect r => simp [earlyEvent, hpn, hmc]
  | Loaded => rfl
  | Log r => rfl
  | Midi m => rfl
  | Control r => cases r <;> rfl

theorem mem_of_any_beq {l : List String} {d : String}
    (h : l.any (fun name => name == d) = true) : d ∈ l := by
  rcases List.any_eq_true.mp h with ⟨x, hx, hbeq⟩
  have hxd : x = d := by simpa using hbeq
  exact hxd ▸ hx

/-- Processing one non-interrupting event steps to the rest of the queue in a
state with the same device list and connection behaviour. -/
theorem aux_step_not_early (a : App) (e : ScriptEvent) (q : List ScriptEvent)
    (he : earlyEvent a e = false) :
    ∃ a2, processScriptEventsAux (e :: q) a = processScriptEventsAux q a2
      ∧ a2.portNames = a.portNames ∧ a2.midiConnectOk = a.midiConnectOk := by
  cases e with
  | Loaded => simp [earlyEvent] at he
  | Log r =>
    exact ⟨handleLuaLogRequest a r, rfl, by cases r <;> rfl, by cases r <;> rfl⟩
  | Midi m => exact ⟨{ a with messages := a.messages ++ [m] }, rfl, rfl, rfl⟩
  | Control r =>
    cases r with
    | Pause => exact ⟨setRunning a false, rfl, rfl, rfl⟩
    | Resume => exact ⟨setRunning a true, rfl, rfl, rfl⟩
    | Stop => simp [earlyEvent] at he
  | Connect r =>
    cases hany : a.portNames.any (fun name => name == r.device) with
    | false =>
      refine ⟨a, ?_, rfl, rfl⟩
      simp only [processScriptEventsAux, handleLuaConnectRequest, hany,
        Bool.false_eq_true, if_false]
    | true =>
      have hc : a.midiConnectOk r.device = true := by
        simpa [earlyEvent, hany] using he
      have hmem : r.device ∈ a.portNames := mem_of_any_beq hany
      have hconn := connect_ok_of_connectOk a r.device hmem hc
      refine ⟨{ a with selectedPortName := some r.device
                       hostQueue := (trySend a.hostQueue (HostEvent.Connect r.device)).1
                       messages := [] }, ?_, rfl, rfl⟩
      simp only [processScriptEventsAux, handleLuaConnectRequest, hany, if_true, hconn]

/-- Draining a run of non-interrupting events reaches the tail of the queue in
a state with the same device list and connection behaviour. -/
theorem aux_skips_prefix (pre : List ScriptEvent) :
    ∀ (q : List ScriptEvent) (a : App), (∀ e ∈ pre, earlyEvent a e = false) →
    ∃ a2, processScriptEventsAux (pre ++ q) a = processScriptEventsAux q a2
      ∧ a2.portNames = a.portNames ∧ a2.midiConnectOk = a.midiConnectOk := by
  induction pre with
  | nil => exact fun q a _ => ⟨a, rfl, rfl, rfl⟩
  | cons e pre ih =>
    intro q a hall
    obtain ⟨a1, h1, hpn1, hmc1⟩ :=
      aux_step_not_early a e (pre ++ q) (hall e (List.mem_cons_self e pre))
    obtain ⟨a2, h2, hpn2, hmc2⟩ := ih q a1 (fun x hx => by
      rw [earlyEvent_congr a a1 hpn1 hmc1]
      exact hall x (List.mem_cons_of_mem e hx))
    exact ⟨a2, by rw [List.cons_append, h1, h2], hpn2.trans hpn1, hmc2.trans hmc1⟩

/-- Claim C9 counterexample: a queue holding no `Loaded` and no `Control(Stop)`
on which `process_script_events` nevertheless does not drain everything and
return `Continue`: the head is a `Connect` for the listed device `"a"` whose
connection attempt fails, so the call returns an error immediately, leaving the
later `Log` event queued. -/
theorem c9_counterexample :
    ScriptEvent.Loaded ∉ failingConnectApp.scriptQueue
  ∧ ScriptEvent.Control ControlFlowApiEvent.Stop ∉ failingConnectApp.scriptQueue
  ∧ processScriptEvents failingConnectApp =
      Except.error ("failed to connect to midi device",
        { failingConnectApp with
          scriptQueue := [ScriptEvent.Log (LogApiEvent.Log "m")] }) :=
  ⟨by decide, by decide, rfl⟩

/-- Claim C9 as amended: `process_script_events` stops at the first interrupting
event — returning `ScriptLoaded` at a `Loaded`, `Stopping` at a `Control(Stop)`,
and the propagated connection error at a `Connect` for a listed device whose
connection attempt fails — leaving the later events queued; when no event
interrupts, it drains every available event and returns `Continue`. -/
theorem c9_drain_until_early_return (a : App) :
    (∀ pre rest, a.scriptQueue = pre ++ ScriptEvent.Loaded :: rest →
        (∀ x ∈ pre, earlyEvent a x = false) →
        ∃ a2, processScriptEvents a = Except.ok (a2, AppEvent.ScriptLoaded)
          ∧ a2.scriptQueue = rest)
  ∧ (∀ pre rest,
        a.scriptQueue = pre ++ ScriptEvent.Control ControlFlowApiEvent.Stop :: rest →
        (∀ x ∈ pre, earlyEvent a x = false) →
        ∃ a2, processScriptEvents a = Except.ok (a2, AppEvent.Stopping)
          ∧ a2.scriptQueue = rest)
  ∧ (∀ pre rest r, a.scriptQueue = pre ++ ScriptEvent.Connect r :: rest →
        (∀ x ∈ pre, earlyEvent a x = false) →
        a.portNames.any (fun name => name == r.device) = true →
        a.midiConnectOk r.device = false →
        ∃ m a2, processScriptEvents a = Except.error (m, a2)
          ∧ a2.scriptQueue = rest)
  ∧ ((∀ x ∈ a.scriptQueue, earlyEvent a x = false) →
        ∃ a2, processScriptEvents a = Except.ok (a2, AppEvent.Continue)
          ∧ a2.scriptQueue = []) := by
  refine ⟨?_, ?_, ?_, ?_⟩
  · intro pre rest hq hpre
    obtain ⟨a1, h1, _, _⟩ := aux_skips_prefix pre (ScriptEvent.Loaded :: rest) a hpre
    refine ⟨{ a1 with scriptQueue := rest }, ?_, rfl⟩
    unfold processScriptEvents
    rw [hq, h1]
    rfl
  · intro pre rest hq hpre
    obtain ⟨a1, h1, _, _⟩ := aux_skips_prefix pre
      (ScriptEvent.Control ControlFlowApiEvent.Stop :: rest) a hpre
    refine ⟨{ a1 with scriptQueue := rest }, ?_, rfl⟩
    unfold processScriptEvents
    rw [hq, h1]
    rfl
  · intro pre rest r hq hpre hany hcf
    obtain ⟨a1, h1, hpn1, hmc1⟩ := aux_skips_prefix pre
      (ScriptEvent.Connect r :: rest) a hpre
    have hany1 : a1.portNames.any (fun name => name == r.device) = true := by
      rw [hpn1]; exact hany
    have hcf1 : a1.midiConnectOk r.device = false := by
      rw [hmc1]; exact hcf
    have herr := connect_err_of_not_connectOk a1 r.device (mem_of_any_beq hany1) hcf1
    refine ⟨"failed to connect to midi device", { a1 with scriptQueue := rest }, ?_, rfl⟩
    unfold processScriptEvents
    rw [hq, h1]
    simp only [processScriptEventsAux, handleLuaConnectRequest, hany1, if_true, herr]
  · intro hall
    obtain ⟨a1, h1, _, _⟩ := aux_skips_prefix a.scriptQueue [] a hall
    rw [List.append_nil] at h1
    refine ⟨{ a1 with scriptQueue := [] }, ?_, rfl⟩
    unfold processScriptEvents
    rw [h1]
    rfl

theorem c9_drain_until_early_return_witness :
    ∃ a2, processScriptEvents logThenLoadedApp =
        Except.ok (a2, AppEvent.ScriptLoaded)
      ∧ a2.scriptQueue = [ScriptEvent.Midi { bytes := [144, 60, 100], timestamp := 0 }] :=
  (c9_drain_until_early_return logThenLoadedApp).1
    [ScriptEvent.Log (LogApiEvent.Log "hello")]
    [ScriptEvent.Midi { bytes := [144, 60, 100], timestamp := 0 }] rfl (by decide)

theorem trySend_fst_of_room (q : List HostEvent) (e : HostEvent)
    (h : q.length < chanCap) : (trySend q e).1 = q ++ [e] := by
  simp [trySend, h]

theorem trySend_fst_of_full (q : List HostEvent) (e : HostEvent)
    (h : ¬ q.length < chanCap) : (trySend q e).1 = q := by
  simp [trySend, h]

theorem loadScript_valid_unfold (w : World) (a : App) (script chunk : String)
    (hfs : w.fs script = some chunk) :
    loadScript w a script =
      match a.selectedPortName with
      | some port =>
        match connectToMidiInput (loadedState w a script chunk) port with
        | Except.ok a6 => Except.ok (a6, AppEvent.Continue)
        | Except.error err => Except.error err
      | none => Except.ok (loadedState w a script chunk, AppEvent.Continue) := by
  unfold loadScript loadedState
  rw [hfs]

theorem loadScript_valid_none (w : World) (a : App) (script chunk : String)
    (hfs : w.fs script = some chunk) (hsp : a.selectedPortName = none) :
    loadScript w a script =
      Except.ok (loadedState w a script chunk, AppEvent.Continue) := by
  rw [loadScript_valid_unfold w a script chunk hfs, hsp]

theorem loadScript_valid_some (w : World) (a : App) (script chunk p : String)
    (hfs : w.fs script = some chunk) (hsp : a.selectedPortName = some p) :
    loadScript w a script =
      match connectToMidiInput (loadedState w a script chunk) p with
      | Except.ok a6 => Except.ok (a6, AppEvent.Continue)
      | Except.error err => Except.error err := by
  rw [loadScript_valid_unfold w a script chunk hfs, hsp]

theorem loadedState_queue_room (w : World) (a : App) (script chunk : String)
    (hroom : a.hostQueue.length + 3 ≤ chanCap) :
    (loadedState w a script chunk).hostQueue =
      a.hostQueue ++ [HostEvent.Stop, HostEvent.LoadScript (fileName script) chunk,
        HostEvent.Discover a.portNames] := by
  have h1 : a.hostQueue.length < chanCap := by omega
  have h2 : (a.hostQueue ++ [HostEvent.Stop]).length < chanCap := by
    simp
    omega
  have h3 : ((a.hostQueue ++ [HostEvent.Stop])
      ++ [HostEvent.LoadScript (fileName script) chunk]).length < chanCap := by
    simp
    omega
  simp only [loadedState]
  rw [trySend_fst_of_room a.hostQueue HostEvent.Stop h1]
  rw [trySend_fst_of_room _ (HostEvent.LoadScript (fileName script) chunk) h2]
  rw [trySend_fst_of_room _ (HostEvent.Discover a.portNames) h3]
  simp

theorem loadedState_queue_full (w : World) (a : App) (script chunk : String)
    (hn : ¬ a.hostQueue.length < chanCap) :
    (loadedState w a script chunk).hostQueue = a.hostQueue := by
  simp only [loadedState]
  rw [trySend_fst_of_full a.hostQueue HostEvent.Stop hn]
  rw [trySend_fst_of_full a.hostQueue (HostEvent.LoadScript (fileName script) chunk) hn]
  rw [trySend_fst_of_full a.hostQueue (HostEvent.Discover a.portNames) hn]

theorem connectByIndex_queue_full (a : App) (i : Nat)
    (hn : ¬ a.hostQueue.length < chanCap) :
    (∃ a2, connectToMidiInputByIndex a i = Except.ok a2 ∧ a2.hostQueue = a.hostQueue)
  ∨ (∃ m, connectToMidiInputByIndex a i = Except.error (m, a)) := by
  cases hget : a.portNames[i]? with
  | none =>
    refine Or.inl ⟨a, ?_, rfl⟩
    unfold connectToMidiInputByIndex
    rw [hget]
  | some nm =>
    cases hc : a.midiConnectOk nm with
    | true =>
      refine Or.inl ⟨_, connectByIndex_ok a i nm hget hc, ?_⟩
      show (trySend a.hostQueue (HostEvent.Connect nm)).1 = a.hostQueue
      exact trySend_fst_of_full a.hostQueue (HostEvent.Connect nm) hn
    | false => exact Or.inr ⟨_, connectByIndex_err a i nm hget hc⟩

theorem connect_queue_full (a : App) (p : String)
    (hn : ¬ a.hostQueue.length < chanCap) :
    (∃ a2, connectToMidiInput a p = Except.ok a2 ∧ a2.hostQueue = a.hostQueue)
  ∨ (∃ m, connectToMidiInput a p = Except.error (m, a)) := by
  unfold connectToMidiInput
  cases hfind : a.portNames.findIdx? (fun name => name == p) with
  | none => exact Or.inl ⟨a, rfl, rfl⟩
  | some i => exact connectByIndex_queue_full a i hn

/-- Whatever a `load_script` call does, the Host→Script channel only grows; when
the channel had room and the path was valid, the first event appended is `Stop`;
when the channel was full or the path invalid, nothing is appended. -/
theorem loadScriptFinal_queue_extends (w : World) (a : App) (s : String) :
    ∃ t, (loadScriptFinal w a s).hostQueue = a.hostQueue ++ t
      ∧ (a.hostQueue.length < chanCap → (∃ c, w.fs s = some c) →
          ∃ t2, t = HostEvent.Stop :: t2)
      ∧ (((¬ a.hostQueue.length < chanCap) ∨ w.fs s = none) → t = []) := by
  cases hfs : w.fs s with
  | none =>
    refine ⟨[], ?_, ?_, fun _ => rfl⟩
    · unfold loadScriptFinal loadScript
      rw [hfs]
      simp
    · rintro _ ⟨c, hc⟩
      cases hc
  | some chunk =>
    by_cases hn : a.hostQueue.length < chanCap
    · obtain ⟨t1, ht1⟩ := trySend_fst_extends (a.hostQueue ++ [HostEvent.Stop])
        (HostEvent.LoadScript (fileName s) chunk)
      obtain ⟨t2, ht2⟩ := trySend_fst_extends ((a.hostQueue ++ [HostEvent.Stop]) ++ t1)
        (HostEvent.Discover a.portNames)
      have hq5 : (loadedState w a s chunk).hostQueue =
          a.hostQueue ++ (HostEvent.Stop :: (t1 ++ t2)) := by
        simp only [loadedState]
        rw [trySend_fst_of_room a.hostQueue HostEvent.Stop hn, ht1, ht2]
        simp
      cases hsp : a.selectedPortName with
      | none =>
        refine ⟨HostEvent.Stop :: (t1 ++ t2), ?_, fun _ _ => ⟨t1 ++ t2, rfl⟩, ?_⟩
        · unfold loadScriptFinal
          rw [loadScript_valid_none w a s chunk hfs hsp]
          exact hq5
        · rintro (hfull | hnone)
          · exact absurd hn hfull
          · cases hnone
      | some p =>
        rcases connect_queue_cases (loadedState w a s chunk) p with
          ⟨a6, hok6, t3, ht3⟩ | ⟨m, herr⟩
        · refine ⟨HostEvent.Stop :: (t1 ++ t2 ++ t3), ?_,
            fun _ _ => ⟨t1 ++ t2 ++ t3, rfl⟩, ?_⟩
          · unfold loadScriptFinal
            rw [loadScript_valid_some w a s chunk p hfs hsp, hok6]
            show a6.hostQueue = a.hostQueue ++ (HostEvent.Stop :: (t1 ++ t2 ++ t3))
            rw [ht3, hq5]
            simp
          · rintro (hfull | hnone)
            · exact absurd hn hfull
            · cases hnone
        · refine ⟨HostEvent.Stop :: (t1 ++ t2), ?_, fun _ _ => ⟨t1 ++ t2, rfl⟩, ?_⟩
          · unfold loadScriptFinal
            rw [loadScript_valid_some w a s chunk p hfs hsp, herr]
            show (loadedState w a s chunk).hostQueue =
              a.hostQueue ++ (HostEvent.Stop :: (t1 ++ t2))
            exact hq5
          · rintro (hfull | hnone)
            · exact absurd hn hfull
            · cases hnone
    · have hq5f := loadedState_queue_full w a s chunk hn
      cases hsp : a.selectedPortName with
      | none =>
        refine ⟨[], ?_, fun hroom _ => absurd hroom hn, fun _ => rfl⟩
        unfold loadScriptFinal
        rw [loadScript_valid_none w a s chunk hfs hsp]
        show (loadedState w a s chunk).hostQueue = a.hostQueue ++ []
        rw [hq5f]
        simp
      | some p =>
        have hnls : ¬ (loadedState w a s chunk).hostQueue.length < chanCap := by
          rw [hq5f]
          exact hn
        rcases connect_queue_full (loadedState w a s chunk) p hnls with
          ⟨a6, hok6, hq6⟩ | ⟨m, herr⟩
        · refine ⟨[], ?_, fun hroom _ => absurd hroom hn, fun _ => rfl⟩
          unfold loadScriptFinal
          rw [loadScript_valid_some w a s chunk p hfs hsp, hok6]
          show a6.hostQueue = a.hostQueue ++ []
          rw [hq6, hq5f]
          simp
        · refine ⟨[], ?_, fun hroom _ => absurd hroom hn, fun _ => rfl⟩
          unfold loadScriptFinal
          rw [loadScript_valid_some w a s chunk p hfs hsp, herr]
          show (loadedState w a s chunk).hostQueue = a.hostQueue ++ []
          rw [hq5f]
          simp

theorem stop_precedes_loadScript (w : World) (a : App) (s nm ch : String)
    (h : HostEvent.LoadScript nm ch ∈ enqueuedDuring w a s) :
    ∃ rest, enqueuedDuring w a s = HostEvent.Stop :: rest := by
  obtain ⟨t, ht, hstop, hempty⟩ := loadScriptFinal_queue_extends w a s
  have henq : enqueuedDuring w a s = t := by
    unfold enqueuedDuring
    rw [ht]
    exact List.drop_left a.hostQueue t
  by_cases hn : a.hostQueue.length < chanCap
  · cases hfs : w.fs s with
    | none =>
      rw [henq, hempty (Or.inr hfs)] at h
      cases h
    | some c =>
      obtain ⟨t2, ht2⟩ := hstop hn ⟨c, hfs⟩
      exact ⟨t2, by rw [henq, ht2]⟩
  · rw [henq, hempty (Or.inl hn)] at h
    cases h

/-- Claim C1: a `load_script` call on a valid path, with room in the channel and
a working MIDI host, returns `Ok` and enqueues exactly `Stop`, then `LoadScript`
with the file name and source, then `Discover` with the device list, then — when
a device was selected — a `Connect` for it; moreover in every call whatsoever, a
`LoadScript` is only ever enqueued with `Stop` enqueued first. -/
theorem c1_load_script_event_order (w : World) (a : App) (script chunk : String)
    (hfs : w.fs script = some chunk)
    (hroom : a.hostQueue.length + 4 ≤ chanCap)
    (hsel : ∀ p, a.selectedPortName = some p → p ∈ a.portNames)
    (hok : ∀ p, a.midiConnectOk p = true) :
    ((∃ a6, loadScript w a script = Except.ok (a6, AppEvent.Continue))
      ∧ enqueuedDuring w a script =
          [HostEvent.Stop, HostEvent.LoadScript (fileName script) chunk,
           HostEvent.Discover a.portNames]
          ++ (match a.selectedPortName with
              | some p => [HostEvent.Connect p]
              | none => []))
  ∧ ∀ (w2 : World) (a2 : App) (s2 nm ch : String),
      HostEvent.LoadScript nm ch ∈ enqueuedDuring w2 a2 s2 →
      ∃ rest, enqueuedDuring w2 a2 s2 = HostEvent.Stop :: rest := by
  refine ⟨?_, fun w2 a2 s2 nm ch h => stop_precedes_loadScript w2 a2 s2 nm ch h⟩
  have hq3 := loadedState_queue_room w a script chunk (by omega)
  cases hsp : a.selectedPortName with
  | none =>
    have hls := loadScript_valid_none w a script chunk hfs hsp
    refine ⟨⟨_, hls⟩, ?_⟩
    unfold enqueuedDuring loadScriptFinal
    rw [hls]
    show (loadedState w a script chunk).hostQueue.drop a.hostQueue.length =
      [HostEvent.Stop, HostEvent.LoadScript (fileName script) chunk,
       HostEvent.Discover a.portNames] ++ []
    rw [hq3, List.drop_left]
    simp
  | some p =>
    have hpmem : p ∈ (loadedState w a script chunk).portNames := hsel p hsp
    have hcok : (loadedState w a script chunk).midiConnectOk p = true := hok p
    have hconn := connect_ok_of_connectOk (loadedState w a script chunk) p hpmem hcok
    have hls : loadScript w a script = Except.ok ({ loadedState w a script chunk with
        selectedPortName := some p
        hostQueue := (trySend (loadedState w a script chunk).hostQueue
          (HostEvent.Connect p)).1
        messages := [] }, AppEvent.Continue) := by
      rw [loadScript_valid_some w a script chunk p hfs hsp, hconn]
    have hq4 : ((loadedState w a script chunk).hostQueue).length < chanCap := by
      rw [hq3]
      simp
      omega
    refine ⟨⟨_, hls⟩, ?_⟩
    unfold enqueuedDuring loadScriptFinal
    rw [hls]
    show ((trySend (loadedState w a script chunk).hostQueue
        (HostEvent.Connect p)).1).drop a.hostQueue.length =
      [HostEvent.Stop, HostEvent.LoadScript (fileName script) chunk,
       HostEvent.Discover a.portNames] ++ [HostEvent.Connect p]
    rw [trySend_fst_of_room _ (HostEvent.Connect p) hq4, hq3, List.append_assoc,
      List.drop_left]

theorem c1_load_script_event_order_witness :
    scriptWorld.fs "script.lua" = some "print 1"
  ∧ (∃ a6, loadScript scriptWorld selectedPortApp "script.lua" =
        Except.ok (a6, AppEvent.Continue))
  ∧ enqueuedDuring scriptWorld selectedPortApp "script.lua" =
      [HostEvent.Stop, HostEvent.LoadScript "script.lua" "print 1",
       HostEvent.Discover ["A", "B"], HostEvent.Connect "B"] := by
  have h := (c1_load_script_event_order scriptWorld selectedPortApp "script.lua"
    "print 1" rfl (by decide)
    (fun p hp => by
      have hb : "B" = p := by simpa [selectedPortApp, baseApp] using hp
      rw [← hb]
      decide)
    (fun p => rfl)).1
  refine ⟨rfl, h.1, ?_⟩
  rw [h.2]
  rfl

end Termtools
